import Mathlib

/-!
Verification development for the LogTracker work-log aggregator
(src/log_parser.py, class WorkLog).

Shallow embedding conventions:
* Calendar dates are records of (year, month, day); date arithmetic and
  comparison go through the proleptic-Gregorian ordinal (`toOrdinal`),
  exactly the ordinal Python's `datetime.date.toordinal` uses
  (1 = January 1 of year 1).  Python's `date.weekday()` (Monday = 0) and
  `date.isocalendar()` (ISO-8601 year / week / weekday) are modelled from
  their documented semantics, since the script calls them as library
  primitives.
* Machine integers are `Int`/`Nat`; Python's floor division `//` is
  `Int.fdiv`.
* Python dicts that the script builds by insertion/accumulation are
  association lists with first-occurrence lookup (`lookupD`) and
  update-or-append (`setD`), which matches dict insertion-order semantics.
* Fractional hour arithmetic is modelled in `ℚ`.
* The `holidays.country_holidays` capability is external; it is a
  parameter `String → Int → Bool` (region, date-ordinal ↦ membership).
-/

/-- A calendar date, as year/month/day (Python `datetime.date`). -/
structure Date where
  year : Nat
  month : Nat
  day : Nat
deriving DecidableEq, Repr

/-- Gregorian leap-year rule. -/
def isLeap (y : Nat) : Bool :=
  y % 4 == 0 && (y % 100 != 0 || y % 400 == 0)

/-- Days in the months strictly before month `m` of a year with
leap-flag `leap` (m = 1..12). -/
def daysBeforeMonth (leap : Bool) (m : Nat) : Nat :=
  let f := if leap then 1 else 0
  match m with
  | 1 => 0
  | 2 => 31
  | 3 => 59 + f
  | 4 => 90 + f
  | 5 => 120 + f
  | 6 => 151 + f
  | 7 => 181 + f
  | 8 => 212 + f
  | 9 => 243 + f
  | 10 => 273 + f
  | 11 => 304 + f
  | _ => 334 + f

/-- Days in the years strictly before year `y` (proleptic Gregorian). -/
def daysBeforeYear (y : Nat) : Nat :=
  365 * (y - 1) + (y - 1) / 4 + (y - 1) / 400 - (y - 1) / 100

/-- Proleptic-Gregorian ordinal of a date: January 1 of year 1 is day 1.
This is Python's `date.toordinal()`. -/
def toOrdinal (d : Date) : Nat :=
  daysBeforeYear d.year + daysBeforeMonth (isLeap d.year) d.month + d.day

/-- The ordinal as an integer, for date differences (`timedelta.days`). -/
def ordInt (d : Date) : Int :=
  (toOrdinal d : Int)

/-- Python `date.weekday()`: Monday = 0 … Sunday = 6.
Ordinal 1 (January 1, year 1) was a Monday. -/
def pyWeekday (d : Date) : Nat :=
  (toOrdinal d + 6) % 7

/-- ISO-8601 weekday: Monday = 1 … Sunday = 7. -/
def isoWeekday (d : Date) : Nat :=
  pyWeekday d + 1

/-- Day of the year (January 1 ↦ 1). -/
def dayOfYear (d : Date) : Nat :=
  daysBeforeMonth (isLeap d.year) d.month + d.day

/-- Auxiliary weekday residue of December 31 of year `y`
(ISO-8601 week-count rule). -/
def isoP (y : Nat) : Nat :=
  (y + y / 4 + y / 400 - y / 100) % 7

/-- Number of ISO-8601 weeks in the week-based year `y` (52 or 53). -/
def isoWeeks (y : Nat) : Nat :=
  if isoP y = 4 ∨ isoP (y - 1) = 3 then 53 else 52

/-- Python `date.isocalendar()`: the ISO-8601 (week-based year, week
number, weekday) triple. -/
def isocalendar (d : Date) : Nat × Nat × Nat :=
  let w := (dayOfYear d + 10 - isoWeekday d) / 7
  if w = 0 then (d.year - 1, isoWeeks (d.year - 1), isoWeekday d)
  else if isoWeeks d.year < w then (d.year + 1, 1, isoWeekday d)
  else (d.year, w, isoWeekday d)

/-- The weekly bucketing key the script builds (log_parser.py line 55):
`(date.year, date.isocalendar().week)` — the CALENDAR year paired with
the ISO week number. -/
def weeklyKey (d : Date) : Nat × Nat :=
  (d.year, (isocalendar d).2.1)

/-- The key the spec demands for weekly buckets: the ISO-8601 week-based
year paired with the ISO week number, both from `isocalendar`. -/
def isoWeekKey (d : Date) : Nat × Nat :=
  ((isocalendar d).1, (isocalendar d).2.1)


/-! ### Python-dict model: association lists in insertion order -/

/-- `m.get(key, dflt)`: value at the first occurrence of `key`, or the
default. -/
def lookupD {α β : Type} [DecidableEq α] : List (α × β) → α → β → β
  | [], _, dflt => dflt
  | (k, v) :: rest, key, dflt => if key = k then v else lookupD rest key dflt

/-- `m.get(key)` as an `Option` (`key in m` tests). -/
def lookupO {α β : Type} [DecidableEq α] : List (α × β) → α → Option β
  | [], _ => none
  | (k, v) :: rest, key => if key = k then some v else lookupO rest key

/-- `m[key] = val`: overwrite the first occurrence in place, or append —
Python dict assignment preserves insertion order this way. -/
def setD {α β : Type} [DecidableEq α] : List (α × β) → α → β → List (α × β)
  | [], key, val => [(key, val)]
  | (k, v) :: rest, key, val =>
      if key = k then (key, val) :: rest else (k, v) :: setD rest key val

/-! ### Log entries and the daily aggregator -/

/-- A work-log record, after the date string has been parsed.  `endm`
stands for the record's `end` field (`end` is a Lean keyword); `none`
models an absent dict key. -/
structure LogEntry where
  date : Date
  project : Option String := none
  start : Option Int := none
  endm : Option Int := none
deriving DecidableEq, Repr

/-- `log.get('project') or "Unassigned"` — a missing OR empty project tag
falls back to the sentinel (Python truthiness). -/
def projOf (e : LogEntry) : String :=
  match e.project with
  | none => "Unassigned"
  | some s => if s = "" then "Unassigned" else s

/-- `log.get('end', 0) - log.get('start', 0)` — missing endpoints read
as 0. -/
def durOf (e : LogEntry) : Int :=
  e.endm.getD 0 - e.start.getD 0

/-- Accumulate `v` minutes under the nested key `(d, p)`:
`data[d][p] = data[d].get(p, 0) + v`, creating `data[d]` if absent. -/
def addNested (data : List (Date × List (String × Int))) (d : Date)
    (p : String) (v : Int) : List (Date × List (String × Int)) :=
  let inner := lookupD data d []
  setD data d (setD inner p (lookupD inner p 0 + v))

/-- One iteration of the `minutes_per_day_by_project` loop body. -/
def mpdStep (data : List (Date × List (String × Int))) (e : LogEntry) :
    List (Date × List (String × Int)) :=
  addNested data e.date (projOf e) (durOf e)

/-- `WorkLog.minutes_per_day_by_project`: minutes per day, broken down by
project; logs without a project group under "Unassigned". -/
def minutes_per_day_by_project (logs : List LogEntry) :
    List (Date × List (String × Int)) :=
  logs.foldl mpdStep []

/-! ### Bucket aggregation (weekly and pay-period rollups) -/

/-- Fold the projects of one day into the bucket at `key`:
`data[key][project] = data[key].get(project, 0) + mins / 60`. -/
def bucketDay {K : Type} [DecidableEq K]
    (data : List (K × List (String × ℚ))) (key : K)
    (projects : List (String × Int)) : List (K × List (String × ℚ)) :=
  setD data key
    (projects.foldl
      (fun inner pm =>
        setD inner pm.1 (lookupD inner pm.1 0 + (pm.2 : ℚ) / 60))
      (lookupD data key []))

/-- The generic bucket aggregator: group the daily map by a period-key
function, converting minutes to hours.  Lines 52–61 and 66–76 of the
source are two textual copies of this loop, specialised below. -/
def bucketFold {K : Type} [DecidableEq K] (keyOf : Date → K)
    (daily : List (Date × List (String × Int))) :
    List (K × List (String × ℚ)) :=
  daily.foldl (fun data dp => bucketDay data (keyOf dp.1) dp.2) []

/-- `WorkLog.weekly_hours_by_project`: hours per week by project, with
bucket key `(date.year, date.isocalendar().week)` (line 55). -/
def weekly_hours_by_project (logs : List LogEntry) :
    List ((Nat × Nat) × List (String × ℚ)) :=
  bucketFold weeklyKey (minutes_per_day_by_project logs)

/-! ### Pay-period configuration and keys -/

/-- A pay-period key: either a `(year, month)` tuple (monthly) or a date
(rolling biweekly window start), the date represented by its ordinal. -/
inductive PPKey where
  | ym (y m : Nat)
  | dk (ordinal : Int)
deriving DecidableEq, Repr

/-- Python `str.lower()` on the period-type strings involved here
(character-wise ASCII lower-casing). -/
def strLower (s : String) : String :=
  ⟨s.data.map Char.toLower⟩

/-- The `payperiod` mapping of the input document; `none` models an
absent key (the whole mapping absent ⇒ both fields `none`).  The anchor
date is stored parsed (`strptime` is the external normaliser; a missing
or empty `start` string yields `none`). -/
structure PayperiodConfig where
  ptype : Option String := none
  start : Option Date := none
deriving DecidableEq, Repr

/-- `WorkLog._get_payperiod_type_and_start`: defaults are type
`'biweekly'` (after lower-casing) and anchor `date(2024, 1, 22)`. -/
def getPayperiodTypeAndStart (cfg : PayperiodConfig) : String × Date :=
  (strLower (cfg.ptype.getD "biweekly"), cfg.start.getD ⟨2024, 1, 22⟩)

/-- `WorkLog._get_payperiod_key`.  `monthly` ⇒ `(year, month)`;
any other type falls through to the biweekly computation
`period_start + timedelta(days=((date - period_start).days // 14) * 14)`,
with `//` the floor division `Int.fdiv`. -/
def getPayperiodKey (date : Date) (ptype : String) (period_start : Date) :
    PPKey :=
  if ptype = "monthly" then PPKey.ym date.year date.month
  else
    let day_delta := ordInt date - ordInt period_start
    let period_delta := day_delta.fdiv 14
    PPKey.dk (ordInt period_start + period_delta * 14)

/-- `WorkLog.pay_period_hours_by_project`: hours per pay period by
project (lines 63–76). -/
def pay_period_hours_by_project (cfg : PayperiodConfig)
    (logs : List LogEntry) : List (PPKey × List (String × ℚ)) :=
  let ts := getPayperiodTypeAndStart cfg
  bucketFold (fun d => getPayperiodKey d ts.1 ts.2)
    (minutes_per_day_by_project logs)

/-! ### Flex time -/

/-- The `config` mapping: `hours_per_week` (default 37.5) and the
optional `holiday_region`. -/
structure WorkConfig where
  hours_per_week : Option ℚ := none
  holiday_region : Option String := none
deriving DecidableEq, Repr

/-- `holidays.country_holidays(region) if region else {}` — an unset or
empty (falsy) region yields the empty holiday set.  The holiday dataset
itself is the external capability `countryHolidays`, a membership test
on regions and date ordinals. -/
def regionalHolidays (countryHolidays : String → Int → Bool)
    (region : Option String) : Int → Bool :=
  match region with
  | none => fun _ => false
  | some r => if r = "" then fun _ => false else countryHolidays r

/-- Python `date.weekday()` read off a date ordinal (Monday = 0). -/
def pyWeekdayO (o : Int) : Int :=
  (o + 6) % 7

/-- `any(start <= current_day <= end for start, end in vacation_periods)`
on date ordinals; both bounds inclusive. -/
def isOnVacation (vac : List (Int × Int)) (o : Int) : Bool :=
  vac.any fun p => p.1 ≤ o && o ≤ p.2

/-- The body of the expected-hours sweep for one day: a weekday that is
neither a regional holiday nor inside a vacation range contributes
`hours_per_week / 5`. -/
def dayCharge (hpw : ℚ) (isHol : Int → Bool) (vac : List (Int × Int))
    (o : Int) : ℚ :=
  if pyWeekdayO o < 5 && !isHol o && !isOnVacation vac o then hpw / 5 else 0

/-- The `while current_day <= last_day` sweep of `flex_time`, unrolled
over the iteration count: day `o`, then `o + 1`, and so on. -/
def expectedLoop (hpw : ℚ) (isHol : Int → Bool) (vac : List (Int × Int)) :
    Nat → Int → ℚ
  | 0, _ => 0
  | n + 1, o => dayCharge hpw isHol vac o + expectedLoop hpw isHol vac n (o + 1)

/-- `min(self.minutes_per_day_by_project.keys())` as an ordinal; the
(unreachable when the map is empty) fallback is 0. -/
def firstLoggedOrd (m : List (Date × List (String × Int))) : Int :=
  match m with
  | [] => 0
  | kv :: rest => rest.foldl (fun acc kv2 => min acc (ordInt kv2.1)) (ordInt kv.1)

/-- Sum of the values of an association list. -/
def sumVals {α M : Type} [AddCommMonoid M] (m : List (α × M)) : M :=
  (m.map Prod.snd).sum

/-- Grand total over a nested map: `sum(sum(p.values()) for p in …)`. -/
def totalOf {K α M : Type} [AddCommMonoid M]
    (data : List (K × List (α × M))) : M :=
  (data.map fun kv => sumVals kv.2).sum

/-- The expected-hours part of `WorkLog.flex_time` (lines 87–102): sweep
every calendar day from the earliest logged date to `today` inclusive.
The loop runs `(today − first) + 1` times (0 when `today` precedes the
first logged day). -/
def expected_hours (countryHolidays : String → Int → Bool)
    (cfg : WorkConfig) (vac : List (Int × Int)) (logs : List LogEntry)
    (today : Date) : ℚ :=
  let hpw := cfg.hours_per_week.getD (75 / 2)
  let isHol := regionalHolidays countryHolidays cfg.holiday_region
  let firstO := firstLoggedOrd (minutes_per_day_by_project logs)
  let lastO := ordInt today
  expectedLoop hpw isHol vac ((lastO - firstO + 1).toNat) firstO

/-- `WorkLog.flex_time`: total logged hours (all minutes ÷ 60) minus the
expected hours; 0 when nothing was ever logged.  `today` is injected. -/
def flex_time (countryHolidays : String → Int → Bool) (cfg : WorkConfig)
    (vac : List (Int × Int)) (logs : List LogEntry) (today : Date) : ℚ :=
  let m := minutes_per_day_by_project logs
  let total : ℚ := (totalOf m : ℤ) / 60
  if m = [] then 0
  else total - expected_hours countryHolidays cfg vac logs today

/-- Modelled from the spec (§4.5, claim C3): the expected-hours value as
a closed sum over every calendar day (ordinal) from the earliest logged
date through today, inclusive, charging `hours_per_week / 5` on each day
that is a weekday (Monday–Friday), is not a regional holiday, and lies
inside no vacation range. -/
def specExpectedHours (hpw : ℚ) (isHol : Int → Bool)
    (vac : List (Int × Int)) (firstO lastO : Int) : ℚ :=
  ∑ o ∈ Finset.Icc firstO lastO,
    if pyWeekdayO o < 5 ∧ isHol o = false ∧ isOnVacation vac o = false
    then hpw / 5 else 0

/-! ### Report rows and CSV output -/

/-- Label resolution inside `WorkLog._create_table_row` (line 178):
`self.project_codes.get(p_header, p_header)` — an unknown project code
is used verbatim as its own label. -/
def tableRowLabel (codes : List (String × String)) (p : String) : String :=
  lookupD codes p p

/-- Label resolution in `output_csv_basic` (line 217):
`self.project_codes.get(project_code, project_code or "Unassigned")`. -/
def projectLabelBasic (codes : List (String × String))
    (project : Option String) : String :=
  match project with
  | none => "Unassigned"
  | some c => lookupD codes c (if c = "" then "Unassigned" else c)

/-- One data row of the basic CSV: project label, date, and the
computed hours `(end - start) / 60`.  A row is only ever written for an
entry that has both endpoints — see `BasicCsvRun`. -/
structure BasicRow where
  project_label : String
  date : Date
  hours : ℚ
deriving DecidableEq, Repr

/-- The outcome of a `output_csv_basic` run.  When every entry has both
`start` and `end` the run completes with its full row list.  When an
entry lacks an endpoint, line 218 sets `hours = ''` and line 219's
`f"{hours:.2f}"` raises `ValueError` on that string, so the run aborts
there: `written` holds the rows already on stdout — a partial report —
and no row is written for the offending or any later entry. -/
inductive BasicCsvRun where
  | complete (rows : List BasicRow)
  | aborted (written : List BasicRow)
deriving DecidableEq, Repr

/-- The data row line 219 writes for an entry with both endpoints. -/
def basicRowOf (codes : List (String × String)) (log : LogEntry)
    (e s : ℤ) : BasicRow :=
  { project_label := projectLabelBasic codes log.project
    date := log.date
    hours := ((e - s : ℤ) : ℚ) / 60 }

/-- `WorkLog.output_csv_basic` (lines 210–219), as the rows it writes
(the header row and the text rendering are presentation) together with
the `ValueError` abort on the first entry missing `start` or `end`. -/
def output_csv_basic (codes : List (String × String)) :
    List LogEntry → BasicCsvRun
  | [] => BasicCsvRun.complete []
  | log :: rest =>
      match log.endm, log.start with
      | some e, some s =>
          match output_csv_basic codes rest with
          | BasicCsvRun.complete rows =>
              BasicCsvRun.complete (basicRowOf codes log e s :: rows)
          | BasicCsvRun.aborted written =>
              BasicCsvRun.aborted (basicRowOf codes log e s :: written)
      | _, _ => BasicCsvRun.aborted []

/-- A YAML scalar in a raw log record: string, integer, or the computed
rational an output routine writes. -/
inductive Val where
  | s (v : String)
  | i (v : Int)
  | r (v : ℚ)
deriving DecidableEq, Repr

/-- A raw log record as a dict: keys to scalar values, insertion order. -/
abbrev DLog : Type := List (String × Val)

/-- The per-record union of keys, first occurrence first (a model of the
set comprehension `{k for log in self.logs for k in log.keys()}` that
remembers one canonical order before sorting). -/
def collectKeys (logs : List DLog) : List String :=
  logs.foldl
    (fun acc log =>
      log.foldl (fun a kv => if kv.1 ∈ a then a else a ++ [kv.1]) acc)
    []

/-- Insert a string into a ≤-sorted list of strings. -/
def insertSorted (x : String) : List String → List String
  | [] => [x]
  | y :: ys => if x ≤ y then x :: y :: ys else y :: insertSorted x ys

/-- Python `sorted` on strings (insertion sort). -/
def sortStrings (l : List String) : List String :=
  l.foldr insertSorted []

/-- The field-name list of `output_csv_detailed` (lines 223–225): the
sorted union of all record keys, then `hours` appended if absent and
`project_label` prepended if absent. -/
def allKeys (logs : List DLog) : List String :=
  let ks := sortStrings (collectKeys logs)
  let ks2 := if "hours" ∈ ks then ks else ks ++ ["hours"]
  if "project_label" ∈ ks2 then ks2 else "project_label" :: ks2

/-- The computed `hours` cell of a detailed row:
`(log['end'] - log['start']) / 60 if 'end' in log and 'start' in log
else ''`, with both endpoints integers. -/
def hoursVal (log : DLog) : Val :=
  match lookupO log "end", lookupO log "start" with
  | some (Val.i e), some (Val.i s) => Val.r (((e - s : ℤ) : ℚ) / 60)
  | _, _ => Val.s ""

/-- The computed `project_label` cell of a detailed row:
`self.project_codes.get(project_code, project_code or "Unassigned")`,
including Python truthiness on non-string project values. -/
def labelVal (codes : List (String × String)) (log : DLog) : Val :=
  match lookupO log "project" with
  | none => Val.s "Unassigned"
  | some (Val.s c) => Val.s (lookupD codes c (if c = "" then "Unassigned" else c))
  | some (Val.i n) => if n = 0 then Val.s "Unassigned" else Val.i n
  | some (Val.r x) => if x = 0 then Val.s "Unassigned" else Val.r x

/-- The value a detailed-CSV row holds at field `k` (lines 230–233):
start from `{k: log.get(k, '') for k in all_keys}` and overwrite the
`project_label` and `hours` cells with the computed values. -/
def detailedCell (codes : List (String × String)) (log : DLog)
    (k : String) : Val :=
  if k = "project_label" then labelVal codes log
  else if k = "hours" then hoursVal log
  else lookupD log k (Val.s "")

/-- One detailed-CSV row as the ordered field/value list the DictWriter
receives. -/
def detailedRow (codes : List (String × String)) (keys : List String)
    (log : DLog) : List (String × Val) :=
  keys.map fun k => (k, detailedCell codes log k)

/-- `WorkLog.output_csv_detailed`, as the list of dict-rows it writes in
field order `allKeys`. -/
def output_csv_detailed (codes : List (String × String))
    (logs : List DLog) : List (List (String × Val)) :=
  logs.map (detailedRow codes (allKeys logs))

/-! ### Concrete fixtures for witnesses and counterexamples -/

/-- A holiday capability with no holidays anywhere (holiday-free region
data). -/
def noHolidays : String → Int → Bool :=
  fun _ _ => false

/-- Five 8-hour entries, Monday 3 June 2024 through Friday 7 June 2024:
2400 minutes = 40 logged hours. -/
def flexLogs : List LogEntry :=
  [⟨⟨2024, 6, 3⟩, some "A", some 0, some 480⟩,
   ⟨⟨2024, 6, 4⟩, some "A", some 0, some 480⟩,
   ⟨⟨2024, 6, 5⟩, some "A", some 0, some 480⟩,
   ⟨⟨2024, 6, 6⟩, some "A", some 0, some 480⟩,
   ⟨⟨2024, 6, 7⟩, some "A", some 0, some 480⟩]

/-- The injected "today" for the flex fixtures: Friday 7 June 2024. -/
def flexToday : Date := ⟨2024, 6, 7⟩

/-- A single two-hour entry on 5 March 2024 tagged with project code
"X". -/
def xLog : LogEntry := ⟨⟨2024, 3, 5⟩, some "X", some 0, some 120⟩

/-- A label mapping that knows only the code "Y" — in particular it has
no "X" key. -/
def yOnlyCodes : List (String × String) := [("Y", "Project Y")]

/-- A raw dict record that already carries an `hours` field of its own
(value "999") besides date/start/end. -/
def hoursDLog : DLog :=
  [("date", Val.s "01/01/2024"), ("end", Val.i 120),
   ("hours", Val.s "999"), ("start", Val.i 0)]

/-! ## Helper lemmas -/

theorem lookupD_setD_self {α β : Type} [DecidableEq α]
    (m : List (α × β)) (k : α) (v : β) (dflt : β) :
    lookupD (setD m k v) k dflt = v := by
  induction m with
  | nil => simp [setD, lookupD]
  | cons kv rest ih =>
      by_cases h : k = kv.1
      · simp [setD, h, lookupD]
      · simp [setD, h, lookupD, ih]

theorem lookupD_not_found {α β : Type} [DecidableEq α] :
    ∀ (m : List (α × β)) (k : α) (dflt : β),
      (∀ p ∈ m, p.1 ≠ k) → lookupD m k dflt = dflt
  | [], _, _, _ => rfl
  | kv :: rest, k, dflt, h => by
      have hk : k ≠ kv.1 := fun he => h kv (by simp) (by simp [he])
      simp only [lookupD, if_neg hk]
      exact lookupD_not_found rest k dflt fun p hp => h p (by simp [hp])

theorem sumVals_cons {α M : Type} [AddCommMonoid M]
    (kv : α × M) (m : List (α × M)) :
    sumVals (kv :: m) = kv.2 + sumVals m := by
  simp [sumVals]

theorem sumVals_setD_add {α M : Type} [DecidableEq α] [AddCommMonoid M]
    (m : List (α × M)) (k : α) (v : M) :
    sumVals (setD m k (lookupD m k 0 + v)) = sumVals m + v := by
  induction m with
  | nil => simp [setD, lookupD, sumVals]
  | cons kv rest ih =>
      by_cases h : k = kv.1
      · simp only [setD, if_pos h, lookupD, sumVals_cons]
        rw [add_right_comm]
      · simp only [setD, if_neg h, lookupD, if_neg h, sumVals_cons, ih]
        rw [add_assoc]

theorem totalOf_cons {K α M : Type} [AddCommMonoid M]
    (kv : K × List (α × M)) (data : List (K × List (α × M))) :
    totalOf (kv :: data) = sumVals kv.2 + totalOf data := by
  simp [totalOf]

theorem totalOf_setD {K α M : Type} [DecidableEq K] [AddCommMonoid M]
    (data : List (K × List (α × M))) (k : K) (v : List (α × M)) :
    totalOf (setD data k v) + sumVals (lookupD data k []) =
      totalOf data + sumVals v := by
  induction data with
  | nil => simp [setD, lookupD, totalOf, sumVals]
  | cons kv rest ih =>
      by_cases h : k = kv.1
      · simp only [setD, if_pos h, lookupD, if_pos h, totalOf_cons]
        abel
      · simp only [setD, if_neg h, lookupD, if_neg h, totalOf_cons]
        rw [add_assoc, ih, ← add_assoc]

theorem sumVals_bucketInner {α : Type} [DecidableEq α] :
    ∀ (projects : List (α × Int)) (inner : List (α × ℚ)),
      sumVals
        (projects.foldl
          (fun inn pm => setD inn pm.1 (lookupD inn pm.1 0 + (pm.2 : ℚ) / 60))
          inner)
        = sumVals inner + ((sumVals projects : ℤ) : ℚ) / 60
  | [], inner => by simp [sumVals]
  | pm :: rest, inner => by
      rw [List.foldl_cons, sumVals_bucketInner rest, sumVals_setD_add,
        sumVals_cons]
      push_cast
      ring

theorem totalOf_bucketDay {K : Type} [DecidableEq K]
    (data : List (K × List (String × ℚ))) (key : K)
    (projects : List (String × Int)) :
    totalOf (bucketDay data key projects)
      = totalOf data + ((sumVals projects : ℤ) : ℚ) / 60 := by
  have h := totalOf_setD data key
    (projects.foldl
      (fun inn pm => setD inn pm.1 (lookupD inn pm.1 0 + (pm.2 : ℚ) / 60))
      (lookupD data key []))
  rw [sumVals_bucketInner] at h
  unfold bucketDay
  linarith

theorem totalOf_bucketFold_aux {K : Type} [DecidableEq K] (keyOf : Date → K) :
    ∀ (daily : List (Date × List (String × Int)))
      (data : List (K × List (String × ℚ))),
      totalOf (daily.foldl (fun acc dp => bucketDay acc (keyOf dp.1) dp.2) data)
        = totalOf data + ((totalOf daily : ℤ) : ℚ) / 60
  | [], data => by simp [totalOf]
  | dp :: rest, data => by
      rw [List.foldl_cons, totalOf_bucketFold_aux keyOf rest,
        totalOf_bucketDay, totalOf_cons]
      push_cast
      ring

theorem totalOf_bucketFold {K : Type} [DecidableEq K] (keyOf : Date → K)
    (daily : List (Date × List (String × Int))) :
    totalOf (bucketFold keyOf daily) = ((totalOf daily : ℤ) : ℚ) / 60 := by
  unfold bucketFold
  rw [totalOf_bucketFold_aux]
  simp [totalOf, sumVals]

theorem totalOf_addNested (data : List (Date × List (String × Int)))
    (d : Date) (p : String) (v : Int) :
    totalOf (addNested data d p v) = totalOf data + v := by
  have h := totalOf_setD data d
    (setD (lookupD data d []) p (lookupD (lookupD data d []) p 0 + v))
  rw [sumVals_setD_add] at h
  show totalOf
      (setD data d
        (setD (lookupD data d []) p (lookupD (lookupD data d []) p 0 + v)))
    = totalOf data + v
  omega

theorem totalOf_mpd_aux :
    ∀ (logs : List LogEntry) (data : List (Date × List (String × Int))),
      totalOf (logs.foldl mpdStep data) = totalOf data + (logs.map durOf).sum
  | [], data => by simp
  | e :: rest, data => by
      rw [List.foldl_cons, totalOf_mpd_aux rest]
      unfold mpdStep
      rw [totalOf_addNested]
      simp only [List.map_cons, List.sum_cons]
      omega

/-- The grand total of the daily aggregator equals the sum of all entry
durations. -/
theorem totalOf_mpd (logs : List LogEntry) :
    totalOf (minutes_per_day_by_project logs) = (logs.map durOf).sum := by
  unfold minutes_per_day_by_project
  rw [totalOf_mpd_aux]
  simp [totalOf]

theorem expectedLoop_eq_range (hpw : ℚ) (isHol : Int → Bool)
    (vac : List (Int × Int)) :
    ∀ (n : Nat) (o : Int),
      expectedLoop hpw isHol vac n o
        = ∑ i ∈ Finset.range n, dayCharge hpw isHol vac (o + i)
  | 0, o => by simp [expectedLoop]
  | n + 1, o => by
      rw [Finset.sum_range_succ']
      simp only [Nat.cast_zero, add_zero]
      rw [show expectedLoop hpw isHol vac (n + 1) o
          = dayCharge hpw isHol vac o + expectedLoop hpw isHol vac n (o + 1)
        from rfl]
      rw [expectedLoop_eq_range hpw isHol vac n (o + 1), add_comm]
      congr 1
      apply Finset.sum_congr rfl
      intro i _
      congr 1
      push_cast
      ring

theorem Icc_eq_map_range (a b : Int) :
    Finset.Icc a b
      = (Finset.range ((b - a + 1).toNat)).map
          ⟨fun i : ℕ => a + (i : ℤ), by
            intro i j hij
            simp only at hij
            omega⟩ := by
  ext x
  simp only [Finset.mem_Icc, Finset.mem_map, Finset.mem_range,
    Function.Embedding.coeFn_mk]
  constructor
  · intro hx
    exact ⟨(x - a).toNat, by omega, by omega⟩
  · intro hx
    obtain ⟨i, hi, he⟩ := hx
    omega

theorem dayCharge_if (hpw : ℚ) (isHol : Int → Bool)
    (vac : List (Int × Int)) (o : Int) :
    dayCharge hpw isHol vac o
      = if pyWeekdayO o < 5 ∧ isHol o = false ∧ isOnVacation vac o = false
        then hpw / 5 else 0 := by
  unfold dayCharge
  refine if_congr ?_ rfl rfl
  simp [Bool.and_eq_true, Bool.not_eq_true', and_assoc]

theorem lookupO_mem_keys {α β : Type} [DecidableEq α] :
    ∀ (m : List (α × β)) (k : α) (v : β),
      lookupO m k = some v → k ∈ m.map Prod.fst
  | [], _, _, h => by simp [lookupO] at h
  | kv :: rest, k, v, h => by
      by_cases hk : k = kv.1
      · simp [hk]
      · simp only [lookupO, if_neg hk] at h
        simp [lookupO_mem_keys rest k v h]

theorem lookupD_of_lookupO {α β : Type} [DecidableEq α] :
    ∀ (m : List (α × β)) (k : α) (v dflt : β),
      lookupO m k = some v → lookupD m k dflt = v
  | [], _, _, _, h => by simp [lookupO] at h
  | kv :: rest, k, v, dflt, h => by
      by_cases hk : k = kv.1
      · simp only [lookupO, if_pos hk, Option.some.injEq] at h
        simp [lookupD, if_pos hk, h]
      · simp only [lookupO, if_neg hk] at h
        simp [lookupD, if_neg hk, lookupD_of_lookupO rest k v dflt h]

theorem mem_keyFold_of_mem (x : String) :
    ∀ (l : List (String × Val)) (acc : List String),
      x ∈ acc →
        x ∈ l.foldl (fun a kv => if kv.1 ∈ a then a else a ++ [kv.1]) acc
  | [], _, h => h
  | kv :: rest, acc, h => by
      rw [List.foldl_cons]
      by_cases hm : kv.1 ∈ acc
      · rw [if_pos hm]
        exact mem_keyFold_of_mem x rest acc h
      · rw [if_neg hm]
        exact mem_keyFold_of_mem x rest (acc ++ [kv.1]) (by simp [h])

theorem mem_keyFold_of_key (x : String) :
    ∀ (l : List (String × Val)) (acc : List String),
      x ∈ l.map Prod.fst →
        x ∈ l.foldl (fun a kv => if kv.1 ∈ a then a else a ++ [kv.1]) acc
  | [], _, h => by simp at h
  | kv :: rest, acc, h => by
      rw [List.map_cons] at h
      rw [List.foldl_cons]
      rcases List.mem_cons.mp h with he | hr
      · by_cases hm : kv.1 ∈ acc
        · rw [if_pos hm]
          exact mem_keyFold_of_mem x rest acc (by rw [he]; exact hm)
        · rw [if_neg hm]
          exact mem_keyFold_of_mem x rest (acc ++ [kv.1]) (by simp [he])
      · by_cases hm : kv.1 ∈ acc
        · rw [if_pos hm]
          exact mem_keyFold_of_key x rest acc hr
        · rw [if_neg hm]
          exact mem_keyFold_of_key x rest (acc ++ [kv.1]) hr

theorem mem_collectKeys_aux (x : String) :
    ∀ (logs : List DLog) (acc : List String),
      (x ∈ acc ∨ ∃ log ∈ logs, x ∈ List.map Prod.fst log) →
        x ∈ logs.foldl
          (fun acc2 log =>
            log.foldl (fun a kv => if kv.1 ∈ a then a else a ++ [kv.1]) acc2)
          acc
  | [], acc, h => by
      rcases h with h | h
      · exact h
      · simp at h
  | log :: rest, acc, h => by
      rw [List.foldl_cons]
      apply mem_collectKeys_aux x rest
      rcases h with h | ⟨l2, hl2, hx⟩
      · exact Or.inl (mem_keyFold_of_mem x log acc h)
      · rcases List.mem_cons.mp hl2 with he | hr
        · subst he
          exact Or.inl (mem_keyFold_of_key x l2 acc hx)
        · exact Or.inr ⟨l2, hr, hx⟩

theorem mem_collectKeys (x : String) (logs : List DLog) (log : DLog)
    (hl : log ∈ logs) (hx : x ∈ List.map Prod.fst log) :
    x ∈ collectKeys logs := by
  unfold collectKeys
  exact mem_collectKeys_aux x logs [] (Or.inr ⟨log, hl, hx⟩)

theorem mem_insertSorted (x y : String) :
    ∀ (l : List String), x ∈ insertSorted y l ↔ x = y ∨ x ∈ l
  | [] => by simp [insertSorted]
  | z :: zs => by
      unfold insertSorted
      by_cases h : y ≤ z
      · rw [if_pos h]
        simp
      · rw [if_neg h]
        simp only [List.mem_cons, mem_insertSorted x y zs]
        tauto

theorem mem_sortStrings (x : String) :
    ∀ (l : List String), x ∈ sortStrings l ↔ x ∈ l
  | [] => Iff.rfl
  | y :: ys => by
      have h := mem_sortStrings x ys
      unfold sortStrings at h ⊢
      rw [List.foldr_cons, mem_insertSorted, h]
      simp

theorem mem_allKeys_of_collect (k : String) (logs : List DLog)
    (h : k ∈ collectKeys logs) : k ∈ allKeys logs := by
  have h1 : k ∈ sortStrings (collectKeys logs) := (mem_sortStrings k _).mpr h
  simp only [allKeys]
  split_ifs <;> simp [h1]

theorem hours_mem_allKeys (logs : List DLog) : "hours" ∈ allKeys logs := by
  simp only [allKeys]
  split_ifs <;> simp_all

theorem project_label_mem_allKeys (logs : List DLog) :
    "project_label" ∈ allKeys logs := by
  simp only [allKeys]
  split_ifs <;> simp_all

theorem lookupO_map_keys {β : Type} (f : String → β) :
    ∀ (keys : List String) (k : String), k ∈ keys →
      lookupO (keys.map fun x => (x, f x)) k = some (f k)
  | [], _, h => by simp at h
  | y :: ys, k, h => by
      by_cases hk : k = y
      · subst hk
        simp [lookupO]
      · rcases List.mem_cons.mp h with he | hr
        · exact absurd he hk
        · simp only [List.map_cons, lookupO, if_neg hk]
          exact lookupO_map_keys f ys k hr

theorem getPayperiodKey_nonMonthly (d s : Date) (t : String)
    (ht : t ≠ "monthly") :
    getPayperiodKey d t s
      = PPKey.dk (ordInt s + (ordInt d - ordInt s).fdiv 14 * 14) := by
  unfold getPayperiodKey
  rw [if_neg ht]

theorem fdiv_14_eq_ediv (x : Int) : x.fdiv 14 = x / 14 :=
  Int.fdiv_eq_ediv x (by norm_num)

theorem mpd_append_single (logs : List LogEntry) (e : LogEntry) :
    minutes_per_day_by_project (logs ++ [e])
      = mpdStep (minutes_per_day_by_project logs) e := by
  unfold minutes_per_day_by_project
  rw [List.foldl_append]
  rfl

theorem output_csv_basic_complete (codes : List (String × String)) :
    ∀ (logs : List LogEntry),
      (∀ e ∈ logs, e.start ≠ none ∧ e.endm ≠ none) →
        ∃ rows, output_csv_basic codes logs = BasicCsvRun.complete rows
          ∧ rows.length = logs.length
  | [], _ => ⟨[], rfl, rfl⟩
  | log :: rest, h => by
      obtain ⟨hs, he⟩ := h log (by simp)
      obtain ⟨sv, hsv⟩ := Option.ne_none_iff_exists'.mp hs
      obtain ⟨ev, hev⟩ := Option.ne_none_iff_exists'.mp he
      obtain ⟨rows, hr, hl⟩ :=
        output_csv_basic_complete codes rest
          (fun e hm => h e (by simp [hm]))
      refine ⟨basicRowOf codes log ev sv :: rows, ?_, by simp [hl]⟩
      simp only [output_csv_basic, hsv, hev, hr]

/-- The abort path of `output_csv_basic` is real: an entry missing its
`start` stops the run right there, leaving only the earlier rows as
partial output. -/
theorem output_csv_basic_aborts_on_missing_endpoint :
    output_csv_basic yOnlyCodes
        [xLog, ⟨⟨2024, 3, 6⟩, none, none, some 90⟩]
      = BasicCsvRun.aborted [basicRowOf yOnlyCodes xLog 120 0] := rfl

/-- The while-loop of `flex_time` computes exactly the closed
calendar-day sum of the specification. -/
theorem expected_hours_eq_spec (countryHolidays : String → Int → Bool)
    (cfg : WorkConfig) (vac : List (Int × Int)) (logs : List LogEntry)
    (today : Date) :
    expected_hours countryHolidays cfg vac logs today
      = specExpectedHours (cfg.hours_per_week.getD (75 / 2))
          (regionalHolidays countryHolidays cfg.holiday_region) vac
          (firstLoggedOrd (minutes_per_day_by_project logs))
          (ordInt today) := by
  unfold expected_hours specExpectedHours
  rw [expectedLoop_eq_range, Icc_eq_map_range, Finset.sum_map]
  simp only [Function.Embedding.coeFn_mk]
  apply Finset.sum_congr rfl
  intro i _
  exact dayCharge_if _ _ _ _

/-! ## Claims -/

/-- C1: the claim says the weekly bucketing key is the pair (ISO-8601
week-based year, ISO week number), so that 30 December 2024 and
1 January 2025 both map to (2025, 1).  The code (line 55) instead pairs
the CALENDAR year with the ISO week number: 30 December 2024 gets key
(2024, 1) — the same bucket as 1 January 2024, a date 364 days earlier —
while 1 January 2025 gets (2025, 1), so the boundary dates land in
different buckets, exactly the naive calendar-year split the spec rules
out. -/
theorem c1_weekly_key_uses_calendar_year :
    weeklyKey ⟨2024, 12, 30⟩ = (2024, 1)
    ∧ weeklyKey ⟨2025, 1, 1⟩ = (2025, 1)
    ∧ isoWeekKey ⟨2024, 12, 30⟩ = (2025, 1)
    ∧ isoWeekKey ⟨2025, 1, 1⟩ = (2025, 1)
    ∧ weeklyKey ⟨2024, 12, 30⟩ ≠ weeklyKey ⟨2025, 1, 1⟩
    ∧ weeklyKey ⟨2024, 12, 30⟩ = weeklyKey ⟨2024, 1, 1⟩
    ∧ (weekly_hours_by_project
        [⟨⟨2024, 12, 30⟩, some "A", some 0, some 480⟩,
         ⟨⟨2025, 1, 1⟩, some "A", some 0, some 480⟩]).map Prod.fst
        = [(2024, 1), (2025, 1)] := by
  refine ⟨by decide, by decide, by decide, by decide, by decide, by decide,
    by decide⟩

/-- C2: for a biweekly configuration the pay-period key of `d` with
anchor `s` is the date `s + 14 * floor((d - s).days / 14)` days (here as
its ordinal, with `Int.fdiv` the floor division of Python's `//`); a
date before the anchor gets a key strictly earlier than the anchor; a
date 13 days later in the same 14-day window shares the key; a date 14
days later never does. -/
theorem c2_biweekly_key_floor_division (d d13 d14 s : Date)
    (h13 : ordInt d13 = ordInt d + 13)
    (h14 : ordInt d14 = ordInt d + 14)
    (hwin : (ordInt d - ordInt s).fdiv 14
        = (ordInt d13 - ordInt s).fdiv 14) :
    getPayperiodKey d "biweekly" s
        = PPKey.dk (ordInt s + (ordInt d - ordInt s).fdiv 14 * 14)
    ∧ (ordInt d < ordInt s →
        ordInt s + (ordInt d - ordInt s).fdiv 14 * 14 < ordInt s)
    ∧ getPayperiodKey d13 "biweekly" s = getPayperiodKey d "biweekly" s
    ∧ getPayperiodKey d14 "biweekly" s ≠ getPayperiodKey d "biweekly" s := by
  refine ⟨getPayperiodKey_nonMonthly d s _ (by decide), ?_, ?_, ?_⟩
  · intro hlt
    rw [fdiv_14_eq_ediv]
    omega
  · rw [getPayperiodKey_nonMonthly d13 s _ (by decide),
      getPayperiodKey_nonMonthly d s _ (by decide), ← hwin]
  · rw [getPayperiodKey_nonMonthly d14 s _ (by decide),
      getPayperiodKey_nonMonthly d s _ (by decide)]
    simp only [ne_eq, PPKey.dk.injEq]
    rw [h14, fdiv_14_eq_ediv, fdiv_14_eq_ediv]
    omega

/-- Witness for C2 at the anchor 22 January 2024: the pre-anchor date
8 January 2024 (14 days earlier) keys to 8 January 2024, shares its key
with 21 January 2024, and differs from the key of 22 January 2024. -/
theorem c2_biweekly_key_floor_division_witness :
    getPayperiodKey ⟨2024, 1, 8⟩ "biweekly" ⟨2024, 1, 22⟩
        = PPKey.dk (ordInt ⟨2024, 1, 22⟩
            + (ordInt ⟨2024, 1, 8⟩ - ordInt ⟨2024, 1, 22⟩).fdiv 14 * 14)
    ∧ ordInt ⟨2024, 1, 22⟩
          + (ordInt ⟨2024, 1, 8⟩ - ordInt ⟨2024, 1, 22⟩).fdiv 14 * 14
        < ordInt ⟨2024, 1, 22⟩
    ∧ getPayperiodKey ⟨2024, 1, 21⟩ "biweekly" ⟨2024, 1, 22⟩
        = getPayperiodKey ⟨2024, 1, 8⟩ "biweekly" ⟨2024, 1, 22⟩
    ∧ getPayperiodKey ⟨2024, 1, 22⟩ "biweekly" ⟨2024, 1, 22⟩
        ≠ getPayperiodKey ⟨2024, 1, 8⟩ "biweekly" ⟨2024, 1, 22⟩ := by
  obtain ⟨h1, h2, h3, h4⟩ :=
    c2_biweekly_key_floor_division ⟨2024, 1, 8⟩ ⟨2024, 1, 21⟩ ⟨2024, 1, 22⟩
      ⟨2024, 1, 22⟩ (by decide) (by decide) (by decide)
  exact ⟨h1, h2 (by decide), h3, h4⟩

/-- C3: for a non-empty log set the expected-hours value swept by
`flex_time` equals the closed sum, over every calendar day from the
earliest logged date through today inclusive, of hours_per_week/5 for
each day that is a weekday (Monday–Friday), is not in the configured
region's holiday calendar, and lies inside no vacation range (bounds
inclusive); with no logged entries at all the value returned is 0. -/
theorem c3_expected_hours_policy (countryHolidays : String → Int → Bool)
    (cfg : WorkConfig) (vac : List (Int × Int)) (logs logs2 : List LogEntry)
    (today : Date)
    (hne : minutes_per_day_by_project logs ≠ [])
    (hemp : minutes_per_day_by_project logs2 = []) :
    expected_hours countryHolidays cfg vac logs today
      = specExpectedHours (cfg.hours_per_week.getD (75 / 2))
          (regionalHolidays countryHolidays cfg.holiday_region) vac
          (firstLoggedOrd (minutes_per_day_by_project logs)) (ordInt today)
    ∧ flex_time countryHolidays cfg vac logs2 today = 0 := by
  refine ⟨expected_hours_eq_spec _ _ _ _ _, ?_⟩
  simp only [flex_time]
  rw [if_pos hemp]

/-- Witness for C3: the five-weekday June 2024 fixture is non-empty and
satisfies the sweep/sum equation; the empty log yields flex balance 0. -/
theorem c3_expected_hours_policy_witness :
    expected_hours noHolidays {} [] flexLogs flexToday
      = specExpectedHours ((({} : WorkConfig).hours_per_week).getD (75 / 2))
          (regionalHolidays noHolidays ({} : WorkConfig).holiday_region) []
          (firstLoggedOrd (minutes_per_day_by_project flexLogs))
          (ordInt flexToday)
    ∧ flex_time noHolidays {} [] [] flexToday = 0 :=
  c3_expected_hours_policy noHolidays {} [] flexLogs [] flexToday
    (by decide) (by decide)

/-- C4: the flex-time balance is total logged hours (the sum of all
logged minutes divided by 60) minus the expected hours. -/
theorem c4_flex_balance (countryHolidays : String → Int → Bool)
    (cfg : WorkConfig) (vac : List (Int × Int)) (logs : List LogEntry)
    (today : Date) (hne : minutes_per_day_by_project logs ≠ []) :
    flex_time countryHolidays cfg vac logs today
      = ((logs.map durOf).sum : ℚ) / 60
        - expected_hours countryHolidays cfg vac logs today := by
  simp only [flex_time]
  rw [if_neg hne, totalOf_mpd]

/-- Witness for C4: 40 logged hours (2400 minutes, Monday–Friday
3–7 June 2024) against 37.5 expected hours yields balance +2.5. -/
theorem c4_flex_balance_witness :
    minutes_per_day_by_project flexLogs ≠ []
    ∧ flex_time noHolidays {} [] flexLogs flexToday = 5 / 2 := by
  refine ⟨by decide, ?_⟩
  rw [c4_flex_balance noHolidays {} [] flexLogs flexToday (by decide)]
  rw [show (flexLogs.map durOf).sum = 2400 from by decide]
  have h1 : firstLoggedOrd (minutes_per_day_by_project flexLogs) = 739040 := by
    decide
  have h2 : ordInt flexToday = 739044 := by decide
  simp only [expected_hours, h1, h2, Option.getD]
  rw [show ((739044 : ℤ) - 739040 + 1).toNat = 5 from by decide]
  rw [show (5 : ℕ) = 4 + 1 from rfl]
  rw [show expectedLoop ((75 : ℚ) / 2)
      (regionalHolidays noHolidays ({} : WorkConfig).holiday_region) []
      (4 + 1) 739040
    = dayCharge ((75 : ℚ) / 2)
        (regionalHolidays noHolidays ({} : WorkConfig).holiday_region) []
        739040
      + expectedLoop ((75 : ℚ) / 2)
          (regionalHolidays noHolidays ({} : WorkConfig).holiday_region) []
          4 739041 from rfl]
  norm_num [expectedLoop, dayCharge, pyWeekdayO, isOnVacation,
    regionalHolidays, noHolidays]

/-- C5: re-bucketing conserves total hours — the grand total over the
weekly aggregator, over the pay-period aggregator, and over the generic
bucket aggregator for any period-key function equals the grand total of
the daily aggregator divided by 60. -/
theorem c5_rebucketing_conserves_total {K : Type} [DecidableEq K]
    (keyOf : Date → K) (cfg : PayperiodConfig) (logs : List LogEntry) :
    totalOf (weekly_hours_by_project logs)
        = ((totalOf (minutes_per_day_by_project logs) : ℤ) : ℚ) / 60
    ∧ totalOf (pay_period_hours_by_project cfg logs)
        = ((totalOf (minutes_per_day_by_project logs) : ℤ) : ℚ) / 60
    ∧ totalOf (bucketFold keyOf (minutes_per_day_by_project logs))
        = ((totalOf (minutes_per_day_by_project logs) : ℤ) : ℚ) / 60 := by
  refine ⟨?_, ?_, totalOf_bucketFold keyOf _⟩
  · unfold weekly_hours_by_project
    exact totalOf_bucketFold weeklyKey _
  · unfold pay_period_hours_by_project
    exact totalOf_bucketFold _ _

/-- C6 counterexample: an entry with project code "X" absent from the
label mapping does NOT abort — the basic CSV run completes, emitting the
entry's full row labelled with the code itself, and the table-row helper
likewise falls back to the code as its own label; no UnknownProjectCode
error path exists in the program. -/
theorem c6_counterexample_unknown_code_emits_row :
    output_csv_basic yOnlyCodes [xLog]
        = BasicCsvRun.complete
            [{ project_label := "X", date := ⟨2024, 3, 5⟩,
               hours := ((120 - 0 : ℤ) : ℚ) / 60 }]
    ∧ tableRowLabel yOnlyCodes "X" = "X"
    ∧ projectLabelBasic yOnlyCodes (some "X") = "X" := by
  refine ⟨?_, by decide, by decide⟩
  show BasicCsvRun.complete [basicRowOf yOnlyCodes xLog 120 0] = _
  unfold basicRowOf
  simp [projectLabelBasic, yOnlyCodes, xLog, lookupD]

/-- C6 (amended): a project code absent from the label mapping is never
fatal — both report paths fall back to the code itself as the display
label, and when every entry carries both `start` and `end` the basic CSV
run completes with one row per entry (the only abort `output_csv_basic`
has is the `ValueError` on a missing endpoint, independent of project
codes). -/
theorem c6_amended_unknown_code_label_fallback
    (codes : List (String × String)) (logs : List LogEntry) (c : String)
    (hc : c ≠ "") (habs : ∀ p ∈ codes, p.1 ≠ c)
    (hends : ∀ e ∈ logs, e.start ≠ none ∧ e.endm ≠ none) :
    projectLabelBasic codes (some c) = c
    ∧ tableRowLabel codes c = c
    ∧ ∃ rows, output_csv_basic codes logs = BasicCsvRun.complete rows
        ∧ rows.length = logs.length := by
  refine ⟨?_, ?_, output_csv_basic_complete codes logs hends⟩
  · show lookupD codes c (if c = "" then "Unassigned" else c) = c
    rw [lookupD_not_found _ _ _ habs, if_neg hc]
  · unfold tableRowLabel
    exact lookupD_not_found _ _ _ habs

/-- Witness for the amended C6 at the concrete unknown code "X" and the
endpoint-complete fixture entry. -/
theorem c6_amended_witness :
    projectLabelBasic yOnlyCodes (some "X") = "X"
    ∧ tableRowLabel yOnlyCodes "X" = "X"
    ∧ ∃ rows, output_csv_basic yOnlyCodes [xLog] = BasicCsvRun.complete rows
        ∧ rows.length = [xLog].length :=
  c6_amended_unknown_code_label_fallback yOnlyCodes [xLog] "X"
    (by decide) (by decide) (by decide)

/-- C7 counterexample: the period type "fortnightly" is outside the
supported set, yet `_get_payperiod_key` does not fail — it silently
computes the biweekly key (4 March 2024 for 5 March 2024 anchored at
22 January 2024); no UnsupportedPeriodType error path exists. -/
theorem c7_counterexample_unknown_type_yields_key :
    getPayperiodKey ⟨2024, 3, 5⟩ "fortnightly" ⟨2024, 1, 22⟩
        = getPayperiodKey ⟨2024, 3, 5⟩ "biweekly" ⟨2024, 1, 22⟩
    ∧ getPayperiodKey ⟨2024, 3, 5⟩ "fortnightly" ⟨2024, 1, 22⟩
        = PPKey.dk (ordInt ⟨2024, 3, 4⟩) :=
  ⟨by decide, by decide⟩

/-- C7 (amended): every period type other than "monthly" — including any
unrecognised one — is treated as biweekly and produces a key. -/
theorem c7_amended_non_monthly_is_biweekly (d s : Date) (t : String)
    (ht : t ≠ "monthly") :
    getPayperiodKey d t s
      = PPKey.dk (ordInt s + (ordInt d - ordInt s).fdiv 14 * 14) :=
  getPayperiodKey_nonMonthly d s t ht

/-- Witness for the amended C7 at the concrete type "fortnightly". -/
theorem c7_amended_witness :
    getPayperiodKey ⟨2024, 3, 5⟩ "fortnightly" ⟨2024, 1, 22⟩
      = PPKey.dk (ordInt ⟨2024, 1, 22⟩
          + (ordInt ⟨2024, 3, 5⟩ - ordInt ⟨2024, 1, 22⟩).fdiv 14 * 14) :=
  c7_amended_non_monthly_is_biweekly ⟨2024, 3, 5⟩ ⟨2024, 1, 22⟩
    "fortnightly" (by decide)

/-- C8 counterexample: the detailed CSV does NOT reproduce every
original field value with only an `hours` column added — for a record
that already has an `hours` field (here "999"), the written row
overwrites it with the computed `(end - start) / 60`, and the field list
also gains a `project_label` column. -/
theorem c8_counterexample_hours_overwritten :
    lookupO (detailedRow [] (allKeys [hoursDLog]) hoursDLog) "hours"
        = some (Val.r 2)
    ∧ lookupO hoursDLog "hours" = some (Val.s "999")
    ∧ allKeys [hoursDLog]
        = ["project_label", "date", "end", "hours", "start"] := by
  refine ⟨?_, by decide, ?_⟩
  · have hk : "hours" ∈ allKeys [hoursDLog] := hours_mem_allKeys [hoursDLog]
    unfold detailedRow
    rw [lookupO_map_keys (detailedCell [] hoursDLog) _ _ hk]
    show some (detailedCell [] hoursDLog "hours") = some (Val.r 2)
    unfold detailedCell
    rw [if_neg (by decide), if_pos rfl]
    simp [hoursVal, hoursDLog, lookupO]
    norm_num
  · simp +decide [allKeys, collectKeys, sortStrings, insertSorted, hoursDLog]

/-- C8 (amended): re-parsing a detailed-CSV row reproduces every
original field value unchanged EXCEPT the fields named `hours` and
`project_label`, which are overwritten with the computed hours
`(end - start) / 60` and the resolved project label; those two columns
are the (only) additions when the record lacks them. -/
theorem c8_amended_roundtrip (codes : List (String × String))
    (logs : List DLog) (log : DLog) (k : String) (v : Val)
    (hl : log ∈ logs) (hkv : lookupO log k = some v)
    (hk1 : k ≠ "hours") (hk2 : k ≠ "project_label") :
    lookupO (detailedRow codes (allKeys logs) log) k = some v
    ∧ lookupO (detailedRow codes (allKeys logs) log) "hours"
        = some (hoursVal log)
    ∧ lookupO (detailedRow codes (allKeys logs) log) "project_label"
        = some (labelVal codes log) := by
  have hmem : k ∈ allKeys logs :=
    mem_allKeys_of_collect k logs
      (mem_collectKeys k logs log hl (lookupO_mem_keys log k v hkv))
  unfold detailedRow
  refine ⟨?_, ?_, ?_⟩
  · rw [lookupO_map_keys (detailedCell codes log) _ _ hmem]
    show some (detailedCell codes log k) = some v
    unfold detailedCell
    rw [if_neg hk2, if_neg hk1, lookupD_of_lookupO log k v _ hkv]
  · rw [lookupO_map_keys (detailedCell codes log) _ _ (hours_mem_allKeys logs)]
    show some (detailedCell codes log "hours") = some (hoursVal log)
    unfold detailedCell
    rw [if_neg (by decide), if_pos rfl]
  · rw [lookupO_map_keys (detailedCell codes log) _ _
      (project_label_mem_allKeys logs)]
    show some (detailedCell codes log "project_label")
      = some (labelVal codes log)
    unfold detailedCell
    rw [if_pos rfl]

/-- Witness for the amended C8: the `date` field of the fixture record
survives the detailed row unchanged while `hours` and `project_label`
hold the computed values. -/
theorem c8_amended_witness :
    lookupO (detailedRow [] (allKeys [hoursDLog]) hoursDLog) "date"
        = some (Val.s "01/01/2024")
    ∧ lookupO (detailedRow [] (allKeys [hoursDLog]) hoursDLog) "hours"
        = some (hoursVal hoursDLog)
    ∧ lookupO (detailedRow [] (allKeys [hoursDLog]) hoursDLog)
          "project_label"
        = some (labelVal [] hoursDLog) :=
  c8_amended_roundtrip [] [hoursDLog] hoursDLog "date"
    (Val.s "01/01/2024") (by decide) (by decide) (by decide) (by decide)

/-- C9: an absent `payperiod` mapping (both fields missing) defaults to
type "biweekly" with anchor 22 January 2024; the type string is
lower-cased before use; and the pay-period aggregation of such a run
buckets with exactly the biweekly key anchored at the default date. -/
theorem c9_payperiod_defaults (logs : List LogEntry) :
    getPayperiodTypeAndStart {} = ("biweekly", ⟨2024, 1, 22⟩)
    ∧ pay_period_hours_by_project {} logs
        = bucketFold (fun d => getPayperiodKey d "biweekly" ⟨2024, 1, 22⟩)
            (minutes_per_day_by_project logs)
    ∧ getPayperiodKey ⟨2024, 2, 1⟩
          (getPayperiodTypeAndStart ({} : PayperiodConfig)).1
          (getPayperiodTypeAndStart ({} : PayperiodConfig)).2
        = PPKey.dk (ordInt ⟨2024, 1, 22⟩)
    ∧ ∀ (t : String) (s : Option Date),
        (getPayperiodTypeAndStart ⟨some t, s⟩).1 = strLower t := by
  refine ⟨by decide, ?_, by decide, fun t s => rfl⟩
  unfold pay_period_hours_by_project
  rfl

/-- C10: an entry whose `start` or `end` field is missing is not
rejected — the daily aggregator reads the missing endpoint as 0 and
still accumulates `end - start` minutes under the entry's
(date, project) key. -/
theorem c10_missing_endpoint_reads_zero (logs : List LogEntry)
    (e : LogEntry) (h : e.start = none ∨ e.endm = none) :
    minutes_per_day_by_project (logs ++ [e])
        = addNested (minutes_per_day_by_project logs) e.date (projOf e)
            (e.endm.getD 0 - e.start.getD 0)
    ∧ lookupD
          (lookupD (minutes_per_day_by_project (logs ++ [e])) e.date [])
          (projOf e) 0
        = lookupD
            (lookupD (minutes_per_day_by_project logs) e.date [])
            (projOf e) 0
          + (e.endm.getD 0 - e.start.getD 0) := by
  have h1 := mpd_append_single logs e
  constructor
  · rw [h1]; rfl
  · rw [h1]
    show lookupD
        (lookupD
          (setD (minutes_per_day_by_project logs) e.date
            (setD (lookupD (minutes_per_day_by_project logs) e.date [])
              (projOf e)
              (lookupD (lookupD (minutes_per_day_by_project logs) e.date [])
                (projOf e) 0 + durOf e)))
          e.date [])
        (projOf e) 0 = _
    rw [lookupD_setD_self, lookupD_setD_self]
    rfl

/-- Witness for C10: a lone entry with no `start` field and `end` = 90
lands 90 minutes under its date and the "Unassigned" project. -/
theorem c10_witness :
    ((⟨⟨2024, 1, 5⟩, none, none, some 90⟩ : LogEntry).start = none
      ∨ (⟨⟨2024, 1, 5⟩, none, none, some 90⟩ : LogEntry).endm = none)
    ∧ minutes_per_day_by_project ([] ++ [⟨⟨2024, 1, 5⟩, none, none, some 90⟩])
        = addNested (minutes_per_day_by_project []) ⟨2024, 1, 5⟩
            (projOf ⟨⟨2024, 1, 5⟩, none, none, some 90⟩)
            ((⟨⟨2024, 1, 5⟩, none, none, some 90⟩ : LogEntry).endm.getD 0
              - (⟨⟨2024, 1, 5⟩, none, none, some 90⟩ : LogEntry).start.getD 0)
    ∧ lookupD
          (lookupD
            (minutes_per_day_by_project
              ([] ++ [⟨⟨2024, 1, 5⟩, none, none, some 90⟩]))
            ⟨2024, 1, 5⟩ [])
          (projOf ⟨⟨2024, 1, 5⟩, none, none, some 90⟩) 0
        = lookupD
            (lookupD (minutes_per_day_by_project []) ⟨2024, 1, 5⟩ [])
            (projOf ⟨⟨2024, 1, 5⟩, none, none, some 90⟩) 0
          + ((⟨⟨2024, 1, 5⟩, none, none, some 90⟩ : LogEntry).endm.getD 0
              - (⟨⟨2024, 1, 5⟩, none, none, some 90⟩ : LogEntry).start.getD 0) := by
  have h := c10_missing_endpoint_reads_zero []
    ⟨⟨2024, 1, 5⟩, none, none, some 90⟩ (Or.inl rfl)
  exact ⟨Or.inl rfl, h.1, h.2⟩
